import Mathlib

/-!
Verification development for the feature-extraction core of a motor-imagery EEG
pipeline: the Common Spatial Pattern transformer (`src/csp.py`) and the
multilevel Haar wavelet transform (`src/wavelet.py`).

The numerical code is embedded shallowly:

* `src/csp.py` involves only rational arithmetic (covariances, trace
  normalization, matrix products, variances), so it is embedded over `ℚ`.
  IEEE special values produced by numpy (`0/0 = nan`, `log 0 = -inf`) are
  modelled explicitly by the types `NpF` and `NpLogVal`; numpy emits a
  `RuntimeWarning` for these operations but raises no exception, so the
  corresponding Lean functions are total.
* `src/wavelet.py` divides by `sqrt 2`, so it is embedded over `ℝ` with exact
  arithmetic.
* Python exceptions (`TypeError`, `AttributeError`, `IndexError`, ...) are
  modelled by `Except PyError`.
-/

/-- Kinds of Python exceptions that the embedded code can raise.  Only the
exception class is modelled, not the message text. -/
inductive PyError where
  /-- TypeError, e.g. concatenating str with int, or a duplicated keyword
  argument in a call. -/
  | typeError
  /-- ValueError, e.g. a broadcast shape mismatch on array assignment. -/
  | valueError
  /-- AttributeError: reading an instance attribute that was never assigned. -/
  | attributeError
  /-- IndexError: indexing an array along an axis of size zero. -/
  | indexError
  /-- AssertionError from a failed assert statement. -/
  | assertionError
deriving DecidableEq

/-- A numpy float64 value, restricted to the values that arise in this code:
an exact (rational) finite value or one of the IEEE specials. -/
inductive NpF where
  | fin (q : ℚ)
  | nan
  | pinf
  | ninf
deriving DecidableEq

/-- IEEE addition on `NpF`: nan is absorbing, opposite infinities give nan. -/
def npAdd : NpF → NpF → NpF
  | .fin a, .fin b => .fin (a + b)
  | .nan, _ => .nan
  | _, .nan => .nan
  | .pinf, .ninf => .nan
  | .ninf, .pinf => .nan
  | .pinf, _ => .pinf
  | _, .pinf => .pinf
  | .ninf, _ => .ninf
  | _, .ninf => .ninf

/-- IEEE division on `NpF`: `0/0 = nan`, `x/0 = ±inf` for `x ≠ 0`, nan is
absorbing; numpy only warns on these, so no exception is modelled here. -/
def npDiv : NpF → NpF → NpF
  | .fin a, .fin b =>
      if b = 0 then (if a = 0 then .nan else if 0 < a then .pinf else .ninf)
      else .fin (a / b)
  | .nan, _ => .nan
  | _, .nan => .nan
  | .pinf, .pinf => .nan
  | .pinf, .ninf => .nan
  | .ninf, .pinf => .nan
  | .ninf, .ninf => .nan
  | .pinf, .fin _ => .pinf
  | .ninf, .fin _ => .ninf
  | .fin _, .pinf => .fin 0
  | .fin _, .ninf => .fin 0

/-- Dot product of two rational vectors (`np.dot` on equal-length rows;
`zipWith` matches numpy on the rectangular inputs that occur). -/
def dotQ (a b : List ℚ) : ℚ := (List.zipWith (· * ·) a b).sum

/-- Transpose of a rectangular matrix stored as a list of rows, column count
taken from the first row, exactly as numpy's `.T` on a 2-D array. -/
def transposeQ (m : List (List ℚ)) : List (List ℚ) :=
  (List.range (m.headD []).length).map (fun j => m.map (fun row => row.getD j 0))

/-- Matrix product `A @ B` of rational matrices. -/
def matMulQ (A B : List (List ℚ)) : List (List ℚ) :=
  A.map (fun row => (transposeQ B).map (fun col => dotQ row col))

/-- The covariance matrix computed inside `np.cov(trial)` before its final
squeeze, for a `(n_channels, n_times)` trial: per-row mean subtraction,
normalization by `n_times - 1` (numpy's default `ddof = 1`).  `ℚ` division by
zero is `0`, which is only reachable for `n_times ≤ 1`; every covariance
entry of an all-zero trial is `0` either way. -/
def npCovRaw (trial : List (List ℚ)) : List (List ℚ) :=
  let m : ℚ := (trial.headD []).length
  let centered := trial.map (fun r => r.map (fun x => x - r.sum / r.length))
  centered.map (fun ri => centered.map (fun rj => dotQ ri rj / (m - 1)))

/-- The result of `np.cov`, which ends with `return c.squeeze()`: for a
single channel the `(1, 1)` matrix collapses to a 0-d array; for any other
channel count no axis has size 1 and the 2-D matrix is kept. -/
inductive NpCovArr where
  | scalar (q : ℚ)
  | mat (m : List (List ℚ))
deriving DecidableEq

/-- `np.cov(trial)` including the final squeeze: a single-channel trial
yields a 0-d array holding the lone covariance entry, every other trial the
full matrix. -/
def npCov (trial : List (List ℚ)) : NpCovArr :=
  if trial.length = 1 then .scalar (((npCovRaw trial).getD 0 []).getD 0 0)
  else .mat (npCovRaw trial)

/-- Trace of a square rational matrix: the sum of its diagonal entries. -/
def traceQ (m : List (List ℚ)) : ℚ :=
  ((List.range m.length).map (fun i => (m.getD i []).getD i 0)).sum

/-- `np.trace` on the squeezed covariance: on a 0-d array it raises
`ValueError` (diag requires an array of at least two dimensions); on a 2-D
matrix it sums the diagonal. -/
def npTraceArr : NpCovArr → Except PyError ℚ
  | .scalar _ => .error .valueError
  | .mat m => .ok (traceQ m)

/-- The trace-normalized covariance of the mat branch:
`np.cov(trial) / np.trace(cov)` elementwise.  For an all-zero trial the trace
is `0` and every entry becomes `0/0 = nan`. -/
def normCovMat (trial : List (List ℚ)) : List (List NpF) :=
  let c := npCovRaw trial
  c.map (fun row => row.map (fun x => npDiv (.fin x) (.fin (traceQ c))))

/-- One iteration of the covariance loop: `cov = np.cov(trial)` followed by
`cov = cov / np.trace(cov)`.  For a single-channel trial `np.cov` has
squeezed the result to a 0-d array, so `np.trace` raises `ValueError`
(`npTraceArr`); otherwise the division is elementwise and total. -/
def normCov (trial : List (List ℚ)) : Except PyError (List (List NpF)) :=
  match npCov trial with
  | .scalar q =>
      match npTraceArr (.scalar q) with
      | .error e => .error e
      -- unreachable: npTraceArr errors on every 0-d array
      | .ok tr => .ok [[npDiv (.fin q) (.fin tr)]]
  | .mat c =>
      match npTraceArr (.mat c) with
      | .error e => .error e
      | .ok tr => .ok (c.map (fun row => row.map (fun x => npDiv (.fin x) (.fin tr))))

/-- Elementwise sum of two `NpF` matrices (`cov_sum += cov`). -/
def matAddNp (A B : List (List NpF)) : List (List NpF) :=
  List.zipWith (List.zipWith npAdd) A B

/-- `np.zeros((n, n))` as an `NpF` matrix. -/
def zerosNp (n : ℕ) : List (List NpF) :=
  List.replicate n (List.replicate n (NpF.fin 0))

/-- The `for i in range(n_trials)` accumulation of
`_compute_average_covariance_matrix`: the first trial whose trace raises
aborts the loop; otherwise the normalized covariances are summed. -/
def covSumLoop : List (List (List ℚ)) → List (List NpF) →
    Except PyError (List (List NpF))
  | [], acc => .ok acc
  | t :: ts, acc =>
      match normCov t with
      | .error e => .error e
      | .ok c => covSumLoop ts (matAddNp acc c)

/-- `CommonSpatialPattern._compute_average_covariance_matrix`: sum the
trace-normalized per-trial covariances starting from `np.zeros` and divide by
the number of trials.  A single-channel batch fails with `ValueError` at the
first trial's `np.trace`; degenerate (all-zero) trials in wider batches
silently turn entries into `nan`. -/
def compute_average_covariance_matrix (X_class : List (List (List ℚ))) :
    Except PyError (List (List NpF)) :=
  let n := (X_class.headD []).length
  match covSumLoop X_class (zerosNp n) with
  | .error e => .error e
  | .ok s =>
      .ok (s.map (fun row => row.map (fun x =>
        npDiv x (.fin (X_class.length : ℚ)))))

/-- Top-left entry of an `NpF` matrix. -/
def ent00 (m : List (List NpF)) : NpF := (m.getD 0 []).getD 0 (NpF.fin 0)

/-- `CommonSpatialPattern.__init__`: `if n_components % 2: raise ...`.
The raise statement evaluates `"..." + n_components` (str plus int), which
itself raises `TypeError` before the `ValueError` is even constructed; either
way construction fails exactly for odd `n_components`.  Lean's `%` on `Int`
agrees with Python's for the positive modulus `2`. -/
def cspInit (n_components : Int) : Except PyError Int :=
  if n_components % 2 = 0 then .ok n_components else .error .typeError

/-- `HaarWaveletTransform.__init__`: stores `n_levels` with no validation. -/
def haarInit (n_levels : Int) : Except PyError Int := .ok n_levels

/-- Python objects passed to `np.concatenate` in this code: a 2-D array, an
int, or a tuple of 2-D arrays. -/
inductive PyObj where
  | mat (m : List (List ℚ))
  | int (n : Int)
  | tup (ms : List (List (List ℚ)))
deriving DecidableEq

/-- Python argument binding for `np.concatenate(arrays, axis=0, ...)`:
positional arguments fill `(arrays, axis)` in order; supplying `axis` both
positionally and by keyword raises
`TypeError: concatenate() got multiple values for argument axis`, before the
function body runs. -/
def bindConcatenateArgs (pos : List PyObj) (kwAxis : Option PyObj) :
    Except PyError (PyObj × PyObj) :=
  match pos, kwAxis with
  | [arrays], none => .ok (arrays, .int 0)
  | [arrays], some ax => .ok (arrays, ax)
  | [arrays, axPos], none => .ok (arrays, axPos)
  | [_, _], some _ => .error .typeError
  | _, _ => .error .typeError

/-- Column-wise concatenation of a list of matrices with equal row counts
(`np.concatenate((A, B, ...), axis=1)` on rectangular arrays). -/
def hconcatRows : List (List (List ℚ)) → List (List ℚ)
  | [] => []
  | [m] => m
  | m :: rest => List.zipWith (· ++ ·) m (hconcatRows rest)

/-- The body of `np.concatenate` for the bound `(arrays, axis)` pair, for the
argument shapes this development needs: a tuple of 2-D arrays concatenated
along axis 0 or 1.  Anything else is collapsed to an error. -/
def npConcatenateObj (arrays axis : PyObj) : Except PyError (List (List ℚ)) :=
  match arrays, axis with
  | .tup ms, .int 0 => .ok ms.flatten
  | .tup ms, .int 1 => .ok (hconcatRows ms)
  | _, _ => .error .typeError

/-- Stable insertion of index `i` into an index list sorted by ascending value
of `xs`. -/
def insertByVal (xs : List ℚ) (i : ℕ) : List ℕ → List ℕ
  | [] => [i]
  | j :: rest =>
      if xs.getD i 0 < xs.getD j 0 then i :: j :: rest else j :: insertByVal xs i rest

/-- `np.argsort(xs)`: indices sorting `xs` ascending (tie order is not relied
on anywhere downstream). -/
def argsortAsc (xs : List ℚ) : List ℕ :=
  (List.range xs.length).foldr (insertByVal xs) []

/-- The tail of `CommonSpatialPattern.fit` after `linalg.eigh` has returned
`(eigenvalues, eigenvectors)`: sort the eigenpairs by descending eigenvalue
(`np.argsort(...)[::-1]`), slice the top and bottom `n_components // 2`
eigenvector columns, and issue the call
`np.concatenate(top, bottom, axis=1)` — two positional arrays plus a keyword
`axis`, exactly as written in the source. -/
def cspFitSelect (eigenvalues : List ℚ) (eigenvectors : List (List ℚ))
    (n_components : Int) : Except PyError (List (List ℚ)) :=
  let idx := (argsortAsc eigenvalues).reverse
  let sortedVecs := eigenvectors.map (fun row => idx.map (fun i => row.getD i 0))
  let k := (Int.fdiv n_components 2).toNat
  let top := sortedVecs.map (fun r => r.take k)
  let bottom := sortedVecs.map (fun r => r.drop (r.length - k))
  match bindConcatenateArgs [PyObj.mat top, PyObj.mat bottom] (some (PyObj.int 1)) with
  | .error e => .error e
  | .ok ab => npConcatenateObj ab.1 ab.2

/-- `np.var(xs)` along the time axis: population variance (`ddof = 0`). -/
def np_var (xs : List ℚ) : ℚ :=
  let mu := xs.sum / (xs.length : ℚ)
  ((xs.map (fun x => (x - mu) ^ 2)).sum) / (xs.length : ℚ)

/-- The value of one log-variance feature.  `np.log` of a positive float is a
real logarithm, kept symbolically as `logOf` of its (rational) argument;
`np.log 0` is `-inf` and `np.log` of a negative value is `nan`, both emitted
with only a `RuntimeWarning`. -/
inductive NpLogVal where
  | logOf (v : ℚ)
  | ninf
  | nan
deriving DecidableEq

/-- `np.log` on one variance value, with numpy's warning-only semantics. -/
def npLog (v : ℚ) : NpLogVal :=
  if 0 < v then .logOf v else if v = 0 then .ninf else .nan

/-- The loop body of `CommonSpatialPattern.transform` given the stored filter
bank `F`: for each trial, `filtered = F.T @ trial`, then
`np.log(np.var(filtered, axis=1))` row by row.  Total: no exception can be
raised here. -/
def cspTransform (F : List (List ℚ)) (X : List (List (List ℚ))) :
    List (List NpLogVal) :=
  X.map (fun trial =>
    (matMulQ (transposeQ F) trial).map (fun row => npLog (np_var row)))

/-- `CommonSpatialPattern.transform` as a method: `self.filters_` is either
never assigned (`none`, attribute access raises `AttributeError`) or holds the
array stored by `fit` (`some F`).  Since `fit` only ever assigns an array and
never the literal `None`, the guard `if self.filters_ is None` is false
whenever the attribute exists, and the loop runs. -/
def cspTransformMethod (filters : Option (List (List ℚ)))
    (X : List (List (List ℚ))) : Except PyError (List (List NpLogVal)) :=
  match filters with
  | none => .error .attributeError
  | some F => .ok (cspTransform F X)

/-- Split a signal into its adjacent sample pairs, the model of
`signal.reshape(N//2, 2)` for even `N`. -/
def toPairs : List ℝ → List (ℝ × ℝ)
  | a :: b :: rest => (a, b) :: toPairs rest
  | _ => []

/-- `HaarWaveletTransform.haar_dwt_forward`: if the length is odd, append a
copy of the last sample (`np.append(signal, signal[-1])`; the `getLastD`
default is unreachable since an empty signal has even length), then map each
adjacent pair `(a, b)` to approximation `(a+b)/sqrt 2` and detail
`(a-b)/sqrt 2`. -/
noncomputable def haar_dwt_forward (signal : List ℝ) : List ℝ × List ℝ :=
  let padded := if signal.length % 2 = 1 then signal ++ [signal.getLastD 0] else signal
  ((toPairs padded).map (fun p => (p.1 + p.2) / Real.sqrt 2),
   (toPairs padded).map (fun p => (p.1 - p.2) / Real.sqrt 2))

/-- The `for _ in range(n_levels)` loop of `haar_dwt_multilevel`: returns the
detail arrays in computation order (finest first) together with the final
approximation (`current`).  The loop breaks as soon as fewer than 2 samples
remain. -/
noncomputable def haar_dwt_loop : List ℝ → ℕ → List (List ℝ) × List ℝ
  | cur, 0 => ([], cur)
  | cur, l + 1 =>
      if cur.length < 2 then ([], cur)
      else
        let fd := haar_dwt_forward cur
        let rest := haar_dwt_loop fd.1 l
        (fd.2 :: rest.1, rest.2)

/-- `HaarWaveletTransform.haar_dwt_multilevel`: run the loop, append the final
approximation to the recorded details, and reverse
(`coeffs.append(current); return coeffs[::-1]`), so the result is
`[approximation, detail_coarsest, ..., detail_finest]`. -/
noncomputable def haar_dwt_multilevel (signal : List ℝ) (n_levels : ℕ) :
    List (List ℝ) :=
  let r := haar_dwt_loop signal n_levels
  r.2 :: r.1.reverse

/-- Total number of coefficients in a list of coefficient arrays. -/
def sumLens (ls : List (List ℝ)) : ℕ := (ls.map List.length).sum

/-- Modelled from the spec: the deterministic coefficient count of the
halving/padding rule — repeatedly replace the running length `N` by
`ceil(N/2)` (recording that many detail coefficients) until `n_levels` is
exhausted or `N < 2`, then add the final approximation length. -/
def totalCoeffs : ℕ → ℕ → ℕ
  | n, 0 => n
  | n, l + 1 => if n < 2 then n else (n + 1) / 2 + totalCoeffs ((n + 1) / 2) l

/-- `np.nan_to_num(-, nan=0.0, posinf=1e10, neginf=-1e10)` on one value: it
replaces only non-finite values and leaves every finite value unchanged.  In
the exact real semantics of this embedding no non-finite value can arise (the
only divisions are by `sqrt 2`), so on its reachable domain the function is
the identity — in particular it never clips a finite value into
`[-1e10, 1e10]`. -/
def nan_to_num (x : ℝ) : ℝ := x

/-- `HaarWaveletTransform.transform`: read the coefficient length from
`X[0, 0, :]` (raising `IndexError` when there is no trial or no channel),
decompose every channel, and write each flattened coefficient vector into the
output array — an assignment that raises a broadcast `ValueError` if some
channel produces a different coefficient count.  Finally apply
`np.nan_to_num` elementwise. -/
noncomputable def hwTransform (n_levels : Int) (X : List (List (List ℝ))) :
    Except PyError (List (List (List ℝ))) :=
  match X with
  | [] => .error .indexError
  | t0 :: _ =>
    match t0 with
    | [] => .error .indexError
    | c0 :: _ =>
      let n_coeffs := sumLens (haar_dwt_multilevel c0 n_levels.toNat)
      if X.all (fun trial => trial.all (fun ch =>
          (haar_dwt_multilevel ch n_levels.toNat).flatten.length == n_coeffs))
      then .ok (X.map (fun trial => trial.map (fun ch =>
          ((haar_dwt_multilevel ch n_levels.toNat).flatten).map nan_to_num)))
      else .error .valueError

theorem npAdd_nan_right (x : NpF) : npAdd x NpF.nan = NpF.nan := by
  cases x <;> rfl

theorem npAdd_nan_left (x : NpF) : npAdd NpF.nan x = NpF.nan := by
  cases x <;> rfl

theorem npDiv_nan_left (x : NpF) : npDiv NpF.nan x = NpF.nan := by
  cases x <;> rfl

theorem getD_map_of_lt {α β : Type} (f : α → β) (l : List α) (i : ℕ) (d : β)
    (da : α) (h : i < l.length) : (l.map f).getD i d = f (l.getD i da) := by
  induction l generalizing i with
  | nil => simp at h
  | cons a t ih =>
    cases i with
    | zero => rfl
    | succ n => simpa using ih n (by simpa using h)

theorem getD_replicate_lt {α : Type} (a d : α) (n i : ℕ) (h : i < n) :
    (List.replicate n a).getD i d = a := by
  induction n generalizing i with
  | zero => omega
  | succ m ih =>
    cases i with
    | zero => rfl
    | succ j => simpa [List.replicate_succ] using ih j (by omega)

theorem getD_replicate_zeroQ (n i : ℕ) :
    (List.replicate n (0 : ℚ)).getD i 0 = 0 := by
  by_cases h : i < n
  · exact getD_replicate_lt _ _ _ _ h
  · rw [List.getD_eq_default]
    simpa using Nat.le_of_not_lt h

theorem centered_zero (r : List ℚ) (hr : ∀ x ∈ r, x = 0) :
    ∀ y ∈ r.map (fun x => x - r.sum / (r.length : ℚ)), y = 0 := by
  intro y hy
  obtain ⟨x, hx, rfl⟩ := List.mem_map.mp hy
  have hs : r.sum = 0 := List.sum_eq_zero hr
  simp [hr x hx, hs]

theorem dotQ_zero_left : ∀ (a b : List ℚ), (∀ x ∈ a, x = 0) → dotQ a b = 0
  | [], _, _ => by simp [dotQ]
  | _ :: _, [], _ => by simp [dotQ]
  | x :: t, y :: s, ha => by
    have hx : x = 0 := ha x (by simp)
    have ht := dotQ_zero_left t s (fun z hz => ha z (by simp [hz]))
    simp only [dotQ, List.zipWith_cons_cons, List.sum_cons] at ht ⊢
    simp [hx, ht]

theorem npCovRaw_zeroTrial (t : List (List ℚ)) (hz : ∀ r ∈ t, ∀ x ∈ r, x = 0) :
    npCovRaw t = List.replicate t.length (List.replicate t.length (0 : ℚ)) := by
  have hcent : ∀ r' ∈ t.map (fun r => r.map (fun x => x - r.sum / (r.length : ℚ))),
      ∀ y ∈ r', y = 0 := by
    intro r' hr' y hy
    obtain ⟨r, hr, rfl⟩ := List.mem_map.mp hr'
    exact centered_zero r (hz r hr) y hy
  simp only [npCovRaw]
  rw [List.eq_replicate_iff]
  constructor
  · simp
  · intro row hrow
    obtain ⟨ri, hri, rfl⟩ := List.mem_map.mp hrow
    rw [List.eq_replicate_iff]
    constructor
    · simp
    · intro v hv
      obtain ⟨rj, _, rfl⟩ := List.mem_map.mp hv
      rw [dotQ_zero_left ri rj (hcent ri hri)]
      simp

theorem traceQ_replicate_zero (n : ℕ) :
    traceQ (List.replicate n (List.replicate n (0 : ℚ))) = 0 := by
  rw [traceQ]
  apply List.sum_eq_zero
  intro x hx
  obtain ⟨i, hi, rfl⟩ := List.mem_map.mp hx
  rw [List.mem_range, List.length_replicate] at hi
  rw [getD_replicate_lt _ _ _ _ hi, getD_replicate_zeroQ]

theorem normCovMat_zeroTrial (t : List (List ℚ)) (hz : ∀ r ∈ t, ∀ x ∈ r, x = 0) :
    normCovMat t = List.replicate t.length (List.replicate t.length NpF.nan) := by
  simp only [normCovMat, npCovRaw_zeroTrial t hz, traceQ_replicate_zero,
    List.map_replicate]
  norm_num [npDiv]

theorem normCovMat_length (t : List (List ℚ)) : (normCovMat t).length = t.length := by
  simp [normCovMat, npCovRaw]

theorem normCovMat_getD0_length (t : List (List ℚ)) (ht : 0 < t.length) :
    ((normCovMat t).getD 0 []).length = t.length := by
  cases t with
  | nil => simp at ht
  | cons r rest => simp [normCovMat, npCovRaw]

theorem normCov_eq_ok (t : List (List ℚ)) (h : t.length ≠ 1) :
    normCov t = Except.ok (normCovMat t) := by
  simp [normCov, npCov, npTraceArr, normCovMat, h]

theorem normCov_scalar_error (t : List (List ℚ)) (h : t.length = 1) :
    normCov t = Except.error PyError.valueError := by
  simp [normCov, npCov, npTraceArr, h]

theorem matAddNp_getD0 (A B : List (List NpF)) :
    (matAddNp A B).getD 0 [] = List.zipWith npAdd (A.getD 0 []) (B.getD 0 []) := by
  cases A <;> cases B <;> simp [matAddNp]

theorem matAddNp_length (A B : List (List NpF)) :
    (matAddNp A B).length = min A.length B.length := by
  simp [matAddNp]

theorem zipWith_getD0_npAdd (a b : List NpF) (ha : 0 < a.length) (hb : 0 < b.length) :
    (List.zipWith npAdd a b).getD 0 (NpF.fin 0) =
      npAdd (a.getD 0 (NpF.fin 0)) (b.getD 0 (NpF.fin 0)) := by
  cases a with
  | nil => simp at ha
  | cons x t =>
    cases b with
    | nil => simp at hb
    | cons y s => rfl

theorem ent00_matAddNp (A B : List (List NpF)) (hA : 0 < (A.getD 0 []).length)
    (hB : 0 < (B.getD 0 []).length) :
    ent00 (matAddNp A B) = npAdd (ent00 A) (ent00 B) := by
  rw [ent00, matAddNp_getD0, zipWith_getD0_npAdd _ _ hA hB]
  rfl

theorem ent00_replicate_nan (n : ℕ) (hn : 0 < n) :
    ent00 (List.replicate n (List.replicate n NpF.nan)) = NpF.nan := by
  rw [ent00, getD_replicate_lt _ _ _ _ hn, getD_replicate_lt _ _ _ _ hn]

theorem covSumLoop_nan (n : ℕ) (hn : 2 ≤ n) :
    ∀ (B : List (List (List ℚ))) (acc : List (List NpF)),
      acc.length = n → (acc.getD 0 []).length = n →
      (∀ t ∈ B, t.length = n) →
      (ent00 acc = NpF.nan ∨ ∃ t ∈ B, ∀ r ∈ t, ∀ x ∈ r, x = 0) →
      ∃ s, covSumLoop B acc = Except.ok s ∧ ent00 s = NpF.nan ∧
        s.length = n ∧ (s.getD 0 []).length = n
  | [], acc, hl, hl0, _, hd => by
    rcases hd with h | ⟨t, ht, _⟩
    · exact ⟨acc, rfl, h, hl, hl0⟩
    · simp at ht
  | t :: B, acc, hl, hl0, htB, hd => by
    have htn : t.length = n := htB t (by simp)
    have hne1 : t.length ≠ 1 := by omega
    have hrowt : ((normCovMat t).getD 0 []).length = n := by
      rw [normCovMat_getD0_length t (by omega), htn]
    have hstep_len : (matAddNp acc (normCovMat t)).length = n := by
      rw [matAddNp_length, hl, normCovMat_length, htn, min_self]
    have hstep_row : ((matAddNp acc (normCovMat t)).getD 0 []).length = n := by
      rw [matAddNp_getD0, List.length_zipWith, hl0, hrowt]
      exact min_self n
    have hBtail : ∀ u ∈ B, u.length = n := fun u hu => htB u (by simp [hu])
    have hrun : covSumLoop (t :: B) acc = covSumLoop B (matAddNp acc (normCovMat t)) := by
      simp only [covSumLoop, normCov_eq_ok t hne1]
    rw [hrun]
    refine covSumLoop_nan n hn B (matAddNp acc (normCovMat t)) hstep_len hstep_row hBtail ?_
    rcases hd with h | ⟨t0, ht0, hz0⟩
    · left
      rw [ent00_matAddNp acc (normCovMat t) (by omega) (by omega), h, npAdd_nan_left]
    · rcases List.mem_cons.mp ht0 with rfl | ht0tail
      · left
        have : ent00 (normCovMat t0) = NpF.nan := by
          rw [normCovMat_zeroTrial t0 hz0, htn]
          exact ent00_replicate_nan n (by omega)
        rw [ent00_matAddNp acc (normCovMat t0) (by omega) (by omega), this, npAdd_nan_right]
      · right
        exact ⟨t0, ht0tail, hz0⟩

theorem toPairs_length : ∀ (s : List ℝ), (toPairs s).length = s.length / 2
  | [] => by simp [toPairs]
  | [_] => by simp [toPairs]
  | a :: b :: t => by
    simp only [toPairs, List.length_cons, toPairs_length t]
    omega

theorem haar_forward_len1 (s : List ℝ) :
    (haar_dwt_forward s).1.length = (s.length + 1) / 2 := by
  by_cases h : s.length % 2 = 1 <;>
    simp only [haar_dwt_forward, h, if_true, if_false, List.length_map,
      toPairs_length, List.length_append, List.length_cons, List.length_nil,
      reduceIte] <;>
    omega

theorem haar_forward_len2 (s : List ℝ) :
    (haar_dwt_forward s).2.length = (s.length + 1) / 2 := by
  by_cases h : s.length % 2 = 1 <;>
    simp only [haar_dwt_forward, h, if_true, if_false, List.length_map,
      toPairs_length, List.length_append, List.length_cons, List.length_nil,
      reduceIte] <;>
    omega

theorem totalCoeffs_small : ∀ (L n : ℕ), n < 2 → totalCoeffs n L = n
  | 0, _, _ => rfl
  | _ + 1, n, h => by simp [totalCoeffs, h]

theorem totalCoeffs_pow2 : ∀ (k L : ℕ), k ≤ L → totalCoeffs (2 ^ k) L = 2 ^ k
  | 0, L, _ => totalCoeffs_small L 1 (by omega)
  | k + 1, L, hkL => by
    obtain ⟨L', rfl⟩ : ∃ L', L = L' + 1 := ⟨L - 1, by omega⟩
    have hp : 1 ≤ 2 ^ k := Nat.one_le_two_pow
    have hmul : 2 ^ (k + 1) = 2 * 2 ^ k := by ring
    rw [totalCoeffs, if_neg (by omega)]
    have hhalf : (2 ^ (k + 1) + 1) / 2 = 2 ^ k := by omega
    rw [hhalf, totalCoeffs_pow2 k L' (by omega)]
    omega

theorem loop_sumLens : ∀ (L : ℕ) (s : List ℝ),
    sumLens (haar_dwt_loop s L).1 + (haar_dwt_loop s L).2.length =
      totalCoeffs s.length L
  | 0, s => by simp [haar_dwt_loop, sumLens, totalCoeffs]
  | L + 1, s => by
    by_cases h : s.length < 2
    · simp [haar_dwt_loop, h, sumLens, totalCoeffs]
    · have ih := loop_sumLens L (haar_dwt_forward s).1
      have h1 := haar_forward_len1 s
      have h2 := haar_forward_len2 s
      rw [h1] at ih
      simp only [haar_dwt_loop, if_neg h, sumLens, List.map_cons,
        List.sum_cons] at ih ⊢
      rw [totalCoeffs, if_neg h, h2]
      omega

theorem multilevel_sumLens (s : List ℝ) (L : ℕ) :
    sumLens (haar_dwt_multilevel s L) = totalCoeffs s.length L := by
  have h := loop_sumLens L s
  simp only [sumLens] at h ⊢
  simp only [haar_dwt_multilevel, List.map_cons, List.sum_cons,
    List.map_reverse, List.sum_reverse]
  omega

theorem multilevel_zero (s : List ℝ) : haar_dwt_multilevel s 0 = [s] := rfl

theorem multilevel_short (s : List ℝ) (L : ℕ) (h : s.length < 2) :
    haar_dwt_multilevel s L = [s] := by
  cases L with
  | zero => rfl
  | succ L' => simp [haar_dwt_multilevel, haar_dwt_loop, h]

theorem multilevel_step (s : List ℝ) (L : ℕ) (h : ¬ s.length < 2) :
    haar_dwt_multilevel s (L + 1) =
      haar_dwt_multilevel (haar_dwt_forward s).1 L ++
        [(haar_dwt_forward s).2] := by
  simp [haar_dwt_multilevel, haar_dwt_loop, h]

theorem pair_energy (a b : ℝ) :
    ((a + b) / Real.sqrt 2) ^ 2 + ((a - b) / Real.sqrt 2) ^ 2 = a ^ 2 + b ^ 2 := by
  have h2 : Real.sqrt 2 ^ 2 = 2 := Real.sq_sqrt (by norm_num)
  have hne : Real.sqrt 2 ≠ 0 := by
    intro h
    rw [h] at h2
    norm_num at h2
  field_simp
  ring

theorem sumSq_toPairs : ∀ (s : List ℝ), s.length % 2 = 0 →
    ((toPairs s).map (fun p => ((p.1 + p.2) / Real.sqrt 2) ^ 2)).sum +
      ((toPairs s).map (fun p => ((p.1 - p.2) / Real.sqrt 2) ^ 2)).sum =
      (s.map (fun x => x ^ 2)).sum
  | [], _ => by simp [toPairs]
  | [_], h => by simp at h
  | a :: b :: t, h => by
    have ht : t.length % 2 = 0 := by
      simp only [List.length_cons] at h
      omega
    have ih := sumSq_toPairs t ht
    simp only [toPairs, List.map_cons, List.sum_cons]
    have hp := pair_energy a b
    linarith

theorem map_nan_to_num (c : List ℝ) : c.map nan_to_num = c := by
  rw [show nan_to_num = id from rfl, List.map_id]

theorem hwTransform_ok (L : Int) (c0 : List ℝ) (cs : List (List ℝ))
    (ts : List (List (List ℝ)))
    (hrect : ∀ t ∈ (c0 :: cs) :: ts, ∀ c ∈ t, c.length = c0.length) :
    hwTransform L ((c0 :: cs) :: ts) =
      Except.ok (((c0 :: cs) :: ts).map (fun trial => trial.map (fun ch =>
        ((haar_dwt_multilevel ch L.toNat).flatten).map nan_to_num))) := by
  have hcheck : (((c0 :: cs) :: ts).all (fun trial => trial.all (fun ch =>
      (haar_dwt_multilevel ch L.toNat).flatten.length ==
        sumLens (haar_dwt_multilevel c0 L.toNat)))) = true := by
    rw [List.all_eq_true]
    intro t ht
    rw [List.all_eq_true]
    intro c hc
    rw [beq_iff_eq, List.length_flatten]
    have h1 : sumLens (haar_dwt_multilevel c L.toNat) =
        totalCoeffs c0.length L.toNat := by
      rw [multilevel_sumLens, hrect t ht c hc]
    simp only [sumLens] at h1
    rw [h1]
    exact (multilevel_sumLens c0 L.toNat).symm
  rw [hwTransform]
  rw [if_pos hcheck]

/-- Claim C1 (code bug): for every output `(eigenvalues, eigenvectors)` of the
generalized eigenproblem and every `n_components`, the filter-bank selection
step of `fit` never stores a filter bank: the call
`np.concatenate(top, bottom, axis=1)` passes the bottom block positionally
into the `axis` parameter, which is also given by keyword, so Python raises
`TypeError` before any concatenation happens. -/
theorem cspFitSelect_typeError (eigenvalues : List ℚ)
    (eigenvectors : List (List ℚ)) (n_components : Int) :
    cspFitSelect eigenvalues eigenvectors n_components =
      Except.error PyError.typeError := rfl

/-- Claim C2 counterexample: the batch consisting of a single all-zero trial
(2 channels, 2 samples) is averaged without any exception; every entry of the
returned average covariance is `nan`, silently propagated from `0/0`.  This
refutes the claim that a numeric-degeneracy error is raised instead. -/
theorem avgCov_zeroTrial_counterexample :
    compute_average_covariance_matrix [[[0, 0], [0, 0]]] =
      Except.ok [[NpF.nan, NpF.nan], [NpF.nan, NpF.nan]] := by
  norm_num [compute_average_covariance_matrix, covSumLoop, normCov, npCov,
    npCovRaw, npTraceArr, traceQ, dotQ, matAddNp, zerosNp, npDiv, npAdd,
    List.range_succ, List.replicate_succ, Function.comp]

/-- Claim C2 (amended): for every rectangular trial batch with at least two
channels that contains an all-zero trial, covariance averaging raises no
error and silently propagates `nan`: the averaging succeeds and the top-left
entry (in fact the whole matrix) of the result is `nan`.  With exactly one
channel the behavior is different but still not the claimed degeneracy
check: `np.cov` squeezes the covariance to a 0-d array and `np.trace` raises
`ValueError` on the very first trial, zero-power or not. -/
theorem avgCov_zeroTrial_silent_nan (B : List (List (List ℚ)))
    (hlen : ∀ t ∈ B, t.length = (B.headD []).length) :
    (2 ≤ (B.headD []).length →
      (∃ t ∈ B, ∀ r ∈ t, ∀ x ∈ r, x = 0) →
      ∃ M, compute_average_covariance_matrix B = Except.ok M ∧
        ent00 M = NpF.nan) ∧
    ((B.headD []).length = 1 → B ≠ [] →
      compute_average_covariance_matrix B = Except.error PyError.valueError) := by
  constructor
  · intro hn hz
    obtain ⟨s, hrun, h1, h2, h3⟩ := covSumLoop_nan (B.headD []).length hn B
      (zerosNp (B.headD []).length)
      (by simp [zerosNp])
      (by
        rw [zerosNp, getD_replicate_lt _ _ _ _ (by omega)]
        simp)
      hlen (Or.inr hz)
    refine ⟨s.map (fun row => row.map (fun x =>
      npDiv x (NpF.fin (B.length : ℚ)))), ?_, ?_⟩
    · simp only [compute_average_covariance_matrix, hrun]
    · unfold ent00 at h1 ⊢
      rw [getD_map_of_lt _ _ 0 [] [] (by omega)]
      rw [getD_map_of_lt _ _ 0 (NpF.fin 0) (NpF.fin 0) (by omega)]
      rw [h1]
      exact npDiv_nan_left _
  · intro h1 hne
    obtain ⟨t0, ts, rfl⟩ : ∃ t0 ts, B = t0 :: ts := by
      cases B with
      | nil => exact absurd rfl hne
      | cons a l => exact ⟨a, l, rfl⟩
    have ht0 : t0.length = 1 := by simpa using h1
    simp only [compute_average_covariance_matrix, covSumLoop,
      normCov_scalar_error t0 ht0]

theorem avgCov_zeroTrial_silent_nan_witness :
    (∃ M, compute_average_covariance_matrix [[[0, 0], [0, 0]]] =
        Except.ok M ∧ ent00 M = NpF.nan) ∧
    compute_average_covariance_matrix [[[1, 2]]] =
      Except.error PyError.valueError :=
  ⟨(avgCov_zeroTrial_silent_nan [[[0, 0], [0, 0]]] (by norm_num)).1
      (by norm_num) ⟨[[0, 0], [0, 0]], by norm_num, by norm_num⟩,
   (avgCov_zeroTrial_silent_nan [[[1, 2]]] (by norm_num)).2
      (by norm_num) (by norm_num)⟩

/-- Claim C3 counterexample: the all-finite input tensor holding the value
`1e20` twice produces, without any non-finite intermediate, the output
coefficient `2e20 / sqrt 2`, which exceeds `1e10`; `nan_to_num` does not clip
finite values, so the output does not lie within `[-1e10, 1e10]`. -/
theorem hwTransform_bound_counterexample :
    hwTransform 1 [[[(1e20 : ℝ), 1e20]]] =
      Except.ok [[[2e20 / Real.sqrt 2, 0]]] ∧
    (1e10 : ℝ) < 2e20 / Real.sqrt 2 := by
  have hpos : 0 < Real.sqrt 2 := Real.sqrt_pos.mpr (by norm_num)
  have hle : Real.sqrt 2 ≤ 2 := by
    nlinarith [Real.sq_sqrt (show (0 : ℝ) ≤ 2 by norm_num), Real.sqrt_nonneg 2]
  constructor
  · norm_num [hwTransform, haar_dwt_multilevel, haar_dwt_loop,
      haar_dwt_forward, toPairs, sumLens, nan_to_num]
  · rw [lt_div_iff₀ hpos]
    nlinarith

/-- Claim C3 (amended): for every nonempty rectangular finite-valued input
tensor, the output contains no non-finite value, and it lies within
`[-1e10, 1e10]` provided all raw multilevel Haar coefficients do; finite
coefficients are passed through `nan_to_num` unchanged, so without that
premise the bound can be exceeded. -/
theorem hwTransform_bounded (L : Int) (c0 : List ℝ) (cs : List (List ℝ))
    (ts : List (List (List ℝ)))
    (hrect : ∀ t ∈ (c0 :: cs) :: ts, ∀ c ∈ t, c.length = c0.length)
    (hbound : ∀ t ∈ (c0 :: cs) :: ts, ∀ c ∈ t,
      ∀ v ∈ (haar_dwt_multilevel c L.toNat).flatten, |v| ≤ 1e10) :
    ∃ Y, hwTransform L ((c0 :: cs) :: ts) = Except.ok Y ∧
      ∀ t ∈ Y, ∀ c ∈ t, ∀ v ∈ c, |v| ≤ 1e10 := by
  refine ⟨_, hwTransform_ok L c0 cs ts hrect, ?_⟩
  intro t ht c hc v hv
  obtain ⟨t0, ht0, rfl⟩ := List.mem_map.mp ht
  obtain ⟨c1, hc1, rfl⟩ := List.mem_map.mp hc
  obtain ⟨v0, hv0, rfl⟩ := List.mem_map.mp hv
  simpa [nan_to_num] using hbound t0 ht0 c1 hc1 v0 hv0

theorem hwTransform_bounded_witness :
    ∃ Y, hwTransform 4 [[[(0 : ℝ)]]] = Except.ok Y ∧
      ∀ t ∈ Y, ∀ c ∈ t, ∀ v ∈ c, |v| ≤ 1e10 :=
  hwTransform_bounded 4 [(0 : ℝ)] [] []
    (by simp)
    (by
      intro t ht c hc v hv
      simp only [List.mem_cons, List.not_mem_nil, or_false] at ht
      subst ht
      simp only [List.mem_cons, List.not_mem_nil, or_false] at hc
      subst hc
      rw [multilevel_short _ _ (by norm_num)] at hv
      simp at hv
      rw [hv]
      norm_num)

/-- Claim C4 counterexample: `CommonSpatialPattern(0)` is accepted although
`n_components = 0` is non-positive, and `HaarWaveletTransform` accepts the
non-positive levels `0` and `-3`; none of these constructions fails. -/
theorem init_validation_counterexample :
    cspInit 0 = Except.ok 0 ∧ haarInit 0 = Except.ok 0 ∧
      haarInit (-3) = Except.ok (-3) :=
  ⟨rfl, rfl, rfl⟩

/-- Claim C4 (amended): construction of the CSP transformer fails exactly for
odd `n_components` (raising a `TypeError` while formatting the error
message); even non-positive values such as `0` are accepted, and the Haar
transform's constructor accepts every `n_levels`, including non-positive
ones, without any validation. -/
theorem init_validation (n L : Int) :
    (cspInit n = Except.error PyError.typeError ↔ n % 2 = 1) ∧
      haarInit L = Except.ok L := by
  constructor
  · constructor
    · intro h
      by_contra hodd
      have h0 : n % 2 = 0 := by omega
      simp [cspInit, h0] at h
    · intro h
      simp [cspInit, h]
  · rfl

/-- Claim C5 counterexample: with the identity filter bank and a single trial
whose two channels are constant over time, both projected variances are `0`;
`transform` raises nothing and silently returns `-inf` (`np.log 0`) in every
feature slot, refuting the claim that a numerical error propagates to the
caller. -/
theorem cspTransform_silent_ninf_counterexample :
    cspTransform [[1, 0], [0, 1]] [[[5, 5], [7, 7]]] =
      [[NpLogVal.ninf, NpLogVal.ninf]] := by
  norm_num [cspTransform, matMulQ, transposeQ, dotQ, np_var, npLog,
    List.range_succ, Function.comp]

/-- Claim C5 (amended): `transform` on a stored filter bank is total — it
raises no numerical error; whenever a component's variance over time is `0`
the corresponding feature entry is silently `-inf`, and a negative variance
(impossible for `np.var`, whose value is a mean of squares) would give `nan`. -/
theorem cspTransform_zero_var_ninf (F : List (List ℚ))
    (X : List (List (List ℚ))) (i j : ℕ) (hi : i < X.length)
    (hj : j < (matMulQ (transposeQ F) (X.getD i [])).length)
    (hv : np_var ((matMulQ (transposeQ F) (X.getD i [])).getD j []) = 0) :
    ((cspTransform F X).getD i []).getD j (NpLogVal.logOf 1) = NpLogVal.ninf := by
  rw [cspTransform]
  rw [getD_map_of_lt _ X i [] [] hi]
  rw [getD_map_of_lt _ _ j (NpLogVal.logOf 1) [] hj]
  rw [hv]
  norm_num [npLog]

theorem cspTransform_zero_var_ninf_witness :
    ((cspTransform [[1, 0], [0, 1]] [[[5, 5], [7, 7]]]).getD 0 []).getD 0
      (NpLogVal.logOf 1) = NpLogVal.ninf :=
  cspTransform_zero_var_ninf [[1, 0], [0, 1]] [[[5, 5], [7, 7]]] 0 0
    (by norm_num)
    (by norm_num [matMulQ, transposeQ, dotQ, List.range_succ, Function.comp])
    (by norm_num [np_var, matMulQ, transposeQ, dotQ, List.range_succ,
      Function.comp])

/-- Claim C6: on every even-length signal the one-level Haar step returns
approximation `(a+b)/sqrt 2` and detail `(a-b)/sqrt 2` for each adjacent pair
`(a, b)`, and the energy (sum of squares) of approximation plus detail equals
the energy of the signal, exactly over the reals. -/
theorem haar_forward_pairs_energy (s : List ℝ) (h : s.length % 2 = 0) :
    haar_dwt_forward s =
      ((toPairs s).map (fun p => (p.1 + p.2) / Real.sqrt 2),
       (toPairs s).map (fun p => (p.1 - p.2) / Real.sqrt 2)) ∧
    ((haar_dwt_forward s).1.map (fun x => x ^ 2)).sum +
      ((haar_dwt_forward s).2.map (fun x => x ^ 2)).sum =
      (s.map (fun x => x ^ 2)).sum := by
  have hne : ¬ s.length % 2 = 1 := by omega
  constructor
  · simp [haar_dwt_forward, hne]
  · have hsq := sumSq_toPairs s h
    simp only [haar_dwt_forward, if_neg hne, List.map_map]
    simpa [Function.comp] using hsq

theorem haar_forward_pairs_energy_witness :
    ((haar_dwt_forward [(1 : ℝ), 3]).1.map (fun x => x ^ 2)).sum +
      ((haar_dwt_forward [(1 : ℝ), 3]).2.map (fun x => x ^ 2)).sum =
      ([(1 : ℝ), 3].map (fun x => x ^ 2)).sum :=
  (haar_forward_pairs_energy [(1 : ℝ), 3] (by norm_num)).2

/-- Claim C7: the total coefficient count of the multilevel Haar
decomposition equals the deterministic halving/padding count `totalCoeffs` of
the signal length, and for a power-of-two length `2^k` with at least `k`
levels it equals the signal length itself. -/
theorem haar_coeff_count (s : List ℝ) (L : ℕ) :
    sumLens (haar_dwt_multilevel s L) = totalCoeffs s.length L ∧
    (∀ k : ℕ, k ≤ L → s.length = 2 ^ k →
      sumLens (haar_dwt_multilevel s L) = s.length) := by
  refine ⟨multilevel_sumLens s L, ?_⟩
  intro k hk hlen
  rw [multilevel_sumLens s L, hlen, totalCoeffs_pow2 k L hk]

theorem haar_coeff_count_witness :
    sumLens (haar_dwt_multilevel (List.replicate 8 (0 : ℝ)) 3) =
      (List.replicate 8 (0 : ℝ)).length ∧
    sumLens (haar_dwt_multilevel (List.replicate 5 (0 : ℝ)) 2) = 7 := by
  constructor
  · exact (haar_coeff_count (List.replicate 8 (0 : ℝ)) 3).2 3 (by norm_num)
      (by simp)
  · rw [(haar_coeff_count (List.replicate 5 (0 : ℝ)) 2).1]
    simp only [List.length_replicate]
    decide

/-- Claim C8: the multilevel decomposition performs no level for an empty
level budget, halts early (returning just the signal, without failing) as
soon as fewer than 2 samples remain, and otherwise recurses on the one-level
approximation with the current detail array placed last — so the result is
the final approximation followed by the detail arrays from coarsest to
finest. -/
theorem haar_multilevel_structure (s : List ℝ) (L : ℕ) :
    haar_dwt_multilevel s 0 = [s] ∧
    (s.length < 2 → haar_dwt_multilevel s L = [s]) ∧
    (2 ≤ s.length →
      haar_dwt_multilevel s (L + 1) =
        haar_dwt_multilevel (haar_dwt_forward s).1 L ++
          [(haar_dwt_forward s).2]) :=
  ⟨multilevel_zero s, multilevel_short s L,
    fun h => multilevel_step s L (by omega)⟩

theorem haar_multilevel_structure_witness :
    haar_dwt_multilevel [(1 : ℝ), 2, 3] 1 =
      haar_dwt_multilevel (haar_dwt_forward [(1 : ℝ), 2, 3]).1 0 ++
        [(haar_dwt_forward [(1 : ℝ), 2, 3]).2] :=
  (haar_multilevel_structure [(1 : ℝ), 2, 3] 0).2.2 (by norm_num)

/-- Claim C9 (code bug): `transform` on a transformer on which `fit` never
succeeded fails, but with `AttributeError` — `__init__` never initializes
`self.filters_`, so the attribute read raises before the dead
`if self.filters_ is None` check can produce the intended not-fitted
`ValueError`. -/
theorem cspTransformMethod_unfitted (X : List (List (List ℚ))) :
    cspTransformMethod none X = Except.error PyError.attributeError := rfl

/-- Claim C10 counterexample: the empty trial tensor (no trials, hence
`n_times = 0 < 2` in every reading) makes `transform` fail with `IndexError`
at `X[0, 0, :]` instead of returning the input unchanged. -/
theorem hwTransform_empty_counterexample :
    hwTransform 4 ([] : List (List (List ℝ))) =
      Except.error PyError.indexError := rfl

/-- Claim C10 (amended): for every input tensor with at least one trial and
one channel whose common `n_times` is less than 2, `transform` performs no
decomposition level and returns the input unchanged; an input with no trial
or no channel instead fails with `IndexError` when sampling `X[0, 0, :]`. -/
theorem hwTransform_short_id (L : Int) (c0 : List ℝ) (cs : List (List ℝ))
    (ts : List (List (List ℝ)))
    (hrect : ∀ t ∈ (c0 :: cs) :: ts, ∀ c ∈ t, c.length = c0.length)
    (hshort : c0.length < 2) :
    hwTransform L ((c0 :: cs) :: ts) = Except.ok ((c0 :: cs) :: ts) := by
  rw [hwTransform_ok L c0 cs ts hrect]
  congr 1
  have hX : ∀ t ∈ (c0 :: cs) :: ts,
      t.map (fun ch => ((haar_dwt_multilevel ch L.toNat).flatten).map nan_to_num)
        = id t := by
    intro t ht
    have hc : ∀ c ∈ t,
        ((haar_dwt_multilevel c L.toNat).flatten).map nan_to_num = id c := by
      intro c hcm
      have hlen : c.length < 2 := by
        rw [hrect t ht c hcm]
        exact hshort
      rw [multilevel_short c _ hlen]
      simp [map_nan_to_num]
    rw [List.map_congr_left hc]
    simp
  rw [List.map_congr_left hX]
  simp

theorem hwTransform_short_id_witness :
    hwTransform 4 [[[(5 : ℝ)]]] = Except.ok [[[(5 : ℝ)]]] :=
  hwTransform_short_id 4 [(5 : ℝ)] [] [] (by simp) (by norm_num)
